import Mathlib

/-!
Verification development for the fMP4 segment demultiplexer in
`src/fmp4_demuxer_lib/src/lib.rs`.

The Rust code consumes typed box structures produced by the external
`mp4_atom` crate.  That crate is a black box here, so its output is
modelled by plain Lean structures carrying exactly the fields the
demuxer reads (plus the per-run `data_offset` field, which the demuxer
deliberately ignores).  Machine integers are modelled as `Nat` with
explicit `% 2^32` / `% 2^64` where the Rust code truncates or wraps;
byte buffers are `List Nat`.  A Rust `anyhow` error is modelled by the
`MalformedPayload` type, and a Rust panic (out-of-bounds `Vec` index)
by the dedicated `Outcome.panicked` constructor, so that returning an
error and crashing stay distinguishable.
-/

/-- One entry of a `trun` box, as exposed by the upstream decoder:
optional sample size (u32), optional duration (u32) and optional
composition-time offset.  `cts` is modelled as the `u64` value the Rust
expression `cts as u64` produces. -/
structure TrunEntry where
  size : Option Nat
  duration : Option Nat
  cts : Option Nat
  deriving DecidableEq

/-- A `trun` box: the explicit data offset (never consulted by the
demuxer) and the sample entries. -/
structure Trun where
  data_offset : Option Int
  entries : List TrunEntry
  deriving DecidableEq

/-- A `tfhd` box: track id and optional default sample size. -/
structure Tfhd where
  track_id : Nat
  default_sample_size : Option Nat
  deriving DecidableEq

/-- A `tfdt` box: the base media decode time (u64). -/
structure Tfdt where
  base_media_decode_time : Nat
  deriving DecidableEq

/-- A track fragment: header, optional decode-time box, run boxes. -/
structure Traf where
  tfhd : Tfhd
  tfdt : Option Tfdt
  trun : List Trun
  deriving DecidableEq

/-- A movie fragment: its track fragments. -/
structure Moof where
  traf : List Traf
  deriving DecidableEq

/-- `DemuxedFrame` from src/fmp4_demuxer_lib/src/lib.rs lines 5-11. -/
structure DemuxedFrame where
  data : List Nat
  timestamp : Option Nat
  duration : Option Nat
  is_keyframe : Bool
  deriving DecidableEq

/-- `ParsedSegment` from src/fmp4_demuxer_lib/src/lib.rs lines 13-17. -/
structure ParsedSegment where
  video_frames : List DemuxedFrame
  audio_frames : List DemuxedFrame
  deriving DecidableEq

/-- The two `anyhow` errors the demuxer creates; the spec calls both of
them MalformedPayload (section 7): an empty `trun` entry list, and a
sample whose byte range `[offset, offset+size)` exceeds the `mdat`
length (carrying sample index, declared size and buffer length). -/
inductive MalformedPayload where
  | noEntriesInTrun : MalformedPayload
  | sampleExceedsMdat : Nat → Nat → Nat → MalformedPayload
  deriving DecidableEq

/-- Result of running a fallible piece of the demuxer: a value, a
returned `Err`, or a Rust panic (used for the unchecked `traf.trun[0]`
index). -/
inductive Outcome (α : Type) where
  | ok : α → Outcome α
  | error : MalformedPayload → Outcome α
  | panicked : Outcome α
  deriving DecidableEq

/-- One successfully decoded top-level box, as matched by
`parse_segment`: a `moof`, an `mdat` (with its raw payload bytes), or
any other box (ignored, the `_ => {}` arm).  A payload is modelled as
the list of boxes `mp4_atom::Any::read_from` yields before it first
fails; the decode failure (end of data or malformed bytes) is the end
of the list. -/
inductive Atom where
  | moof : Moof → Atom
  | mdat : List Nat → Atom
  | other : Atom
  deriving DecidableEq

/-- Truncation of a `u64` value to `u32` (the Rust `as u32` cast). -/
def asU32 (n : Nat) : Nat := n % 2 ^ 32

/-- Wrapping `u64` arithmetic (release-mode overflow semantics). -/
def u64wrap (n : Nat) : Nat := n % 2 ^ 64

/-- `u32::from_be_bytes` applied to the four bytes of `sample` at
`offset` (src/fmp4_demuxer_lib/src/lib.rs lines 149-154). -/
def u32_from_be_bytes (sample : List Nat) (offset : Nat) : Nat :=
  sample.getD offset 0 * 2 ^ 24 + sample.getD (offset + 1) 0 * 2 ^ 16 +
    sample.getD (offset + 2) 0 * 2 ^ 8 + sample.getD (offset + 3) 0

/-- The `while offset + 4 <= sample.len()` loop of `is_keyframe_sample`
(src/fmp4_demuxer_lib/src/lib.rs lines 144-192), including the trailing
`if found_slice { return false } false`.  `offset` and `found_slice`
are the two mutable locals of the Rust function. -/
def keyframeScan (hevc : Bool) (sample : List Nat) (offset : Nat)
    (found_slice : Bool) : Bool :=
  if _h1 : offset + 4 ≤ sample.length then
    if _h2 : offset + 4 + u32_from_be_bytes sample offset > sample.length ∨
        u32_from_be_bytes sample offset = 0 then
      if found_slice then false else false
    else
      match hevc with
      | false =>
        if sample.getD (offset + 4) 0 &&& 0x1f = 5 then true
        else
          keyframeScan hevc sample (offset + 4 + u32_from_be_bytes sample offset)
            (if sample.getD (offset + 4) 0 &&& 0x1f = 1 then true else found_slice)
      | true =>
        if offset + 4 + 1 < sample.length then
          if (sample.getD (offset + 4) 0 * 2 ^ 8 + sample.getD (offset + 4 + 1) 0) >>> 9 &&& 0x3f = 19 ∨
              (sample.getD (offset + 4) 0 * 2 ^ 8 + sample.getD (offset + 4 + 1) 0) >>> 9 &&& 0x3f = 20 ∨
              (sample.getD (offset + 4) 0 * 2 ^ 8 + sample.getD (offset + 4 + 1) 0) >>> 9 &&& 0x3f = 21 ∨
              (sample.getD (offset + 4) 0 * 2 ^ 8 + sample.getD (offset + 4 + 1) 0) >>> 9 &&& 0x3f = 16 ∨
              (sample.getD (offset + 4) 0 * 2 ^ 8 + sample.getD (offset + 4 + 1) 0) >>> 9 &&& 0x3f = 17 ∨
              (sample.getD (offset + 4) 0 * 2 ^ 8 + sample.getD (offset + 4 + 1) 0) >>> 9 &&& 0x3f = 18 then
            true
          else
            keyframeScan hevc sample (offset + 4 + u32_from_be_bytes sample offset)
              (if (sample.getD (offset + 4) 0 * 2 ^ 8 + sample.getD (offset + 4 + 1) 0) >>> 9 &&& 0x3f ≤ 9 then
                true
              else found_slice)
        else
          keyframeScan hevc sample (offset + 4 + u32_from_be_bytes sample offset) found_slice
  else
    if found_slice then false else false
  termination_by sample.length - offset
  decreasing_by
  all_goals simp only [not_or] at _h2
  all_goals omega

/-- `SegmentParser::is_keyframe_sample` (src/fmp4_demuxer_lib/src/lib.rs
lines 144-192); `hevc` is the `self.hevc` construction flag. -/
def is_keyframe_sample (hevc : Bool) (sample : List Nat) : Bool :=
  keyframeScan hevc sample 0 false

/-- Step-counted variant of `keyframeScan`: `none` means the step budget
ran out.  Used to state that the scan of `is_keyframe_sample` finishes
within a number of loop iterations bounded by the sample length. -/
def keyframeScanFuel (hevc : Bool) (sample : List Nat) :
    Nat → Nat → Bool → Option Bool
  | 0, _, _ => none
  | fuel + 1, offset, found_slice =>
    if offset + 4 ≤ sample.length then
      if offset + 4 + u32_from_be_bytes sample offset > sample.length ∨
          u32_from_be_bytes sample offset = 0 then
        some (if found_slice then false else false)
      else
        match hevc with
        | false =>
          if sample.getD (offset + 4) 0 &&& 0x1f = 5 then some true
          else
            keyframeScanFuel hevc sample fuel (offset + 4 + u32_from_be_bytes sample offset)
              (if sample.getD (offset + 4) 0 &&& 0x1f = 1 then true else found_slice)
        | true =>
          if offset + 4 + 1 < sample.length then
            if (sample.getD (offset + 4) 0 * 2 ^ 8 + sample.getD (offset + 4 + 1) 0) >>> 9 &&& 0x3f = 19 ∨
                (sample.getD (offset + 4) 0 * 2 ^ 8 + sample.getD (offset + 4 + 1) 0) >>> 9 &&& 0x3f = 20 ∨
                (sample.getD (offset + 4) 0 * 2 ^ 8 + sample.getD (offset + 4 + 1) 0) >>> 9 &&& 0x3f = 21 ∨
                (sample.getD (offset + 4) 0 * 2 ^ 8 + sample.getD (offset + 4 + 1) 0) >>> 9 &&& 0x3f = 16 ∨
                (sample.getD (offset + 4) 0 * 2 ^ 8 + sample.getD (offset + 4 + 1) 0) >>> 9 &&& 0x3f = 17 ∨
                (sample.getD (offset + 4) 0 * 2 ^ 8 + sample.getD (offset + 4 + 1) 0) >>> 9 &&& 0x3f = 18 then
              some true
            else
              keyframeScanFuel hevc sample fuel (offset + 4 + u32_from_be_bytes sample offset)
                (if (sample.getD (offset + 4) 0 * 2 ^ 8 + sample.getD (offset + 4 + 1) 0) >>> 9 &&& 0x3f ≤ 9 then
                  true
                else found_slice)
          else
            keyframeScanFuel hevc sample fuel (offset + 4 + u32_from_be_bytes sample offset) found_slice
    else
      some (if found_slice then false else false)

/-- The sample's well-formed length-prefixed NAL units, following the
spec's framing description (section 4.3): 4-byte big-endian length then
payload, repeated; a zero length or a length overrunning the sample
ends the scan.  `fuel` bounds the recursion; `specNalUnits` supplies a
sufficient budget. -/
def nalUnitsAux (sample : List Nat) : Nat → Nat → List (List Nat)
  | 0, _ => []
  | fuel + 1, offset =>
    if offset + 4 ≤ sample.length then
      if offset + 4 + u32_from_be_bytes sample offset > sample.length ∨
          u32_from_be_bytes sample offset = 0 then []
      else
        (sample.drop (offset + 4)).take (u32_from_be_bytes sample offset) ::
          nalUnitsAux sample fuel (offset + 4 + u32_from_be_bytes sample offset)
    else []

/-- The length-prefixed NAL units of a sample (spec section 4.3). -/
def specNalUnits (sample : List Nat) : List (List Nat) :=
  nalUnitsAux sample (sample.length + 1) 0

/-- H.264 NAL type of a unit: first payload byte masked with 0x1F. -/
def nalType264 (u : List Nat) : Nat := u.headI &&& 0x1f

/-- Value stored in a frame's `timestamp` field
(src/fmp4_demuxer_lib/src/lib.rs lines 90-94): with a composition
offset, `(accumulated_time + cts as u64) as u32` (the `u64` addition
wraps, the cast keeps the low 32 bits); without one,
`accumulated_time as u32`. -/
def sample_timestamp_val (accumulated_time : Nat) (cts : Option Nat) : Nat :=
  match cts with
  | some cts => asU32 (u64wrap (accumulated_time + cts))
  | none => asU32 accumulated_time

/-- Update of `accumulated_time` after one entry
(src/fmp4_demuxer_lib/src/lib.rs lines 133-135): add the duration when
present (wrapping u64), leave it unchanged otherwise. -/
def accumulated_time_step (accumulated_time : Nat) (duration : Option Nat) : Nat :=
  match duration with
  | some duration => u64wrap (accumulated_time + duration)
  | none => accumulated_time

/-- The `for (sample_index, entry) in trun.entries.iter().enumerate()`
loop of `extract_frames_from_mdat_enhanced`
(src/fmp4_demuxer_lib/src/lib.rs lines 85-136).  Arguments after the
fixed ones are the loop state: `sample_offset`, `accumulated_time`,
`sample_index`, the two output vectors, and the remaining entries.  On
success it returns the final `sample_offset` (which the Rust code
stores back into `data_offset`) and the grown vectors. -/
def entriesLoop (hevc is_video_track : Bool) (mdat_data : List Nat)
    (default_sample_size : Nat) :
    Nat → Nat → Nat → List DemuxedFrame → List DemuxedFrame → List TrunEntry →
    Except MalformedPayload (Nat × List DemuxedFrame × List DemuxedFrame)
  | sample_offset, _, _, video_frames, audio_frames, [] =>
    .ok (sample_offset, video_frames, audio_frames)
  | sample_offset, accumulated_time, sample_index, video_frames, audio_frames,
      entry :: rest =>
    let sample_size := entry.size.getD default_sample_size
    let sample_timestamp : Option Nat :=
      some (sample_timestamp_val accumulated_time entry.cts)
    if sample_offset + sample_size > mdat_data.length then
      .error (.sampleExceedsMdat sample_index sample_size mdat_data.length)
    else
      let sample_data := (mdat_data.drop sample_offset).take sample_size
      let pushed :=
        if is_video_track then
          let is_keyframe :=
            if sample_data.length ≥ 5 then is_keyframe_sample hevc sample_data
            else false
          (video_frames ++ [⟨sample_data, sample_timestamp, entry.duration, is_keyframe⟩],
            audio_frames)
        else
          (video_frames,
            audio_frames ++ [⟨sample_data, sample_timestamp, entry.duration, false⟩])
      entriesLoop hevc is_video_track mdat_data default_sample_size
        (sample_offset + sample_size)
        (accumulated_time_step accumulated_time entry.duration)
        (sample_index + 1) pushed.1 pushed.2 rest

/-- The `for traf in &moof.traf` loop of
`extract_frames_from_mdat_enhanced` (src/fmp4_demuxer_lib/src/lib.rs
lines 70-139).  The first argument after `mdat_data` is the running
`data_offset`.  `&traf.trun[0]` on an empty run-box list is an
out-of-bounds `Vec` index, i.e. a Rust panic, modelled by
`Outcome.panicked`. -/
def trafLoop (hevc : Bool) (mdat_data : List Nat) :
    Nat → List DemuxedFrame → List DemuxedFrame → List Traf →
    Outcome (List DemuxedFrame × List DemuxedFrame)
  | _, video_frames, audio_frames, [] => .ok (video_frames, audio_frames)
  | data_offset, video_frames, audio_frames, traf :: rest =>
    let track_id := traf.tfhd.track_id
    let is_video_track := track_id == 1
    match traf.trun with
    | [] => .panicked
    | trun :: _ =>
      if trun.entries.isEmpty then .error .noEntriesInTrun
      else
        let default_sample_size := traf.tfhd.default_sample_size.getD 0
        let base_time :=
          match traf.tfdt with
          | some tfdt => tfdt.base_media_decode_time
          | none => 0
        match entriesLoop hevc is_video_track mdat_data default_sample_size
            data_offset base_time 0 video_frames audio_frames trun.entries with
        | .error e => .error e
        | .ok (sample_offset, vf, af) => trafLoop hevc mdat_data sample_offset vf af rest

/-- `SegmentParser::extract_frames_from_mdat_enhanced`
(src/fmp4_demuxer_lib/src/lib.rs lines 61-142): `data_offset` starts at
0 and the track fragments are processed in declaration order. -/
def extract_frames_from_mdat_enhanced (hevc : Bool) (mdat_data : List Nat)
    (moof : Moof) (video_frames audio_frames : List DemuxedFrame) :
    Outcome (List DemuxedFrame × List DemuxedFrame) :=
  trafLoop hevc mdat_data 0 video_frames audio_frames moof.traf

/-- The `while let Ok(atom) = Any::read_from(&mut cursor)` loop of
`parse_segment` (src/fmp4_demuxer_lib/src/lib.rs lines 34-53): the
first argument is `current_moof`, then the two accumulating vectors and
the remaining successfully decoded boxes.  When the list is exhausted
(the upstream decoder failed, whether at end of data or on malformed
bytes) the loop ends and the accumulated frames are returned. -/
def parseLoop (hevc : Bool) :
    Option Moof → List DemuxedFrame → List DemuxedFrame → List Atom →
    Outcome ParsedSegment
  | _, video_frames, audio_frames, [] => .ok ⟨video_frames, audio_frames⟩
  | _, vf, af, .moof m :: rest => parseLoop hevc (some m) vf af rest
  | current_moof, vf, af, .mdat d :: rest =>
    match current_moof with
    | none => parseLoop hevc none vf af rest
    | some moof =>
      match extract_frames_from_mdat_enhanced hevc d moof vf af with
      | .ok (vf2, af2) => parseLoop hevc none vf2 af2 rest
      | .error e => .error e
      | .panicked => .panicked
  | current_moof, vf, af, .other :: rest => parseLoop hevc current_moof vf af rest

/-- `SegmentParser::parse_segment` (src/fmp4_demuxer_lib/src/lib.rs
lines 28-59), over the boxes the upstream decoder yields from the
payload. -/
def parse_segment (hevc : Bool) (payload : List Atom) : Outcome ParsedSegment :=
  parseLoop hevc none [] [] payload

/-- Track classification used by the extractor: track id 1 is video. -/
def trafVideo (t : Traf) : Bool := t.tfhd.track_id == 1

/-- Base decode time of a track fragment: the `tfdt` value, 0 if the
box is absent. -/
def trafBase (t : Traf) : Nat :=
  match t.tfdt with
  | some tfdt => tfdt.base_media_decode_time
  | none => 0

/-- Default sample size of a track fragment (0 if not declared). -/
def trafDSize (t : Traf) : Nat := t.tfhd.default_sample_size.getD 0

/-- Entries of the first run box of a track fragment ([] when the
fragment declares no run box at all — a case the extractor can never
complete on, see the panic claims). -/
def trafEntries (t : Traf) : List TrunEntry :=
  match t.trun with
  | [] => []
  | trun :: _ => trun.entries

/-- Total declared byte size of a run: each entry contributes its own
size, or the default sample size when absent. -/
def runSizeSum (default_sample_size : Nat) : List TrunEntry → Nat
  | [] => 0
  | e :: es => e.size.getD default_sample_size + runSizeSum default_sample_size es

/-- Total declared byte size of a track fragment's first run. -/
def trafSizeSum (t : Traf) : Nat := runSizeSum (trafDSize t) (trafEntries t)

/-- Sum of the declared durations of a list of entries (an absent
duration leaves the accumulated time unchanged, i.e. contributes 0). -/
def durSum (es : List TrunEntry) : Nat := (es.map fun e => e.duration.getD 0).sum

/-- Spec-side description of the frames one run produces, following the
spec's extraction algorithm (section 4.2): each entry yields exactly one
frame whose data is the byte slice `[off, off+size)` of `mdat`, whose
timestamp combines the accumulated decode time with the optional
composition offset, and whose keyframe flag is computed only for video
samples of length at least 5. -/
def specRunFrames (hevc is_video : Bool) (mdat : List Nat)
    (default_sample_size : Nat) : Nat → Nat → List TrunEntry → List DemuxedFrame
  | _, _, [] => []
  | off, acc, e :: es =>
    let s := e.size.getD default_sample_size
    let data := (mdat.drop off).take s
    let kf :=
      if is_video then
        (if data.length ≥ 5 then is_keyframe_sample hevc data else false)
      else false
    ⟨data, some (sample_timestamp_val acc e.cts), e.duration, kf⟩ ::
      specRunFrames hevc is_video mdat default_sample_size (off + s)
        (accumulated_time_step acc e.duration) es

/-- Spec-side description of the video frames a `moof`'s track
fragments produce, with the byte cursor threaded contiguously: each
track fragment starts where the previous one's declared sizes ended. -/
def specTrafsVideo (hevc : Bool) (mdat : List Nat) : Nat → List Traf → List DemuxedFrame
  | _, [] => []
  | off, t :: ts =>
    (if trafVideo t then
      specRunFrames hevc true mdat (trafDSize t) off (trafBase t) (trafEntries t)
    else []) ++ specTrafsVideo hevc mdat (off + trafSizeSum t) ts

/-- Spec-side description of the audio frames a `moof`'s track
fragments produce (every track id other than 1). -/
def specTrafsAudio (hevc : Bool) (mdat : List Nat) : Nat → List Traf → List DemuxedFrame
  | _, [] => []
  | off, t :: ts =>
    (if trafVideo t then []
    else specRunFrames hevc false mdat (trafDSize t) off (trafBase t) (trafEntries t)) ++
      specTrafsAudio hevc mdat (off + trafSizeSum t) ts

/-- Spec-side description of all video frames of a payload, mirroring
the scanner's moof/mdat pairing (section 4.1). -/
def specPayloadVideo (hevc : Bool) : Option Moof → List Atom → List DemuxedFrame
  | _, [] => []
  | _, .moof m :: rest => specPayloadVideo hevc (some m) rest
  | some m, .mdat d :: rest =>
    specTrafsVideo hevc d 0 m.traf ++ specPayloadVideo hevc none rest
  | none, .mdat _ :: rest => specPayloadVideo hevc none rest
  | pending, .other :: rest => specPayloadVideo hevc pending rest

/-- Spec-side description of all audio frames of a payload. -/
def specPayloadAudio (hevc : Bool) : Option Moof → List Atom → List DemuxedFrame
  | _, [] => []
  | _, .moof m :: rest => specPayloadAudio hevc (some m) rest
  | some m, .mdat d :: rest =>
    specTrafsAudio hevc d 0 m.traf ++ specPayloadAudio hevc none rest
  | none, .mdat _ :: rest => specPayloadAudio hevc none rest
  | pending, .other :: rest => specPayloadAudio hevc pending rest

/-- Total number of entries in the first run box of every track
fragment of a `moof`. -/
def moofEntryCount (m : Moof) : Nat := (m.traf.map fun t => (trafEntries t).length).sum

/-- Total number of first-run entries across all moof/mdat pairs the
scanner pairs up. -/
def payloadEntryCount : Option Moof → List Atom → Nat
  | _, [] => 0
  | _, .moof m :: rest => payloadEntryCount (some m) rest
  | some m, .mdat _ :: rest => moofEntryCount m + payloadEntryCount none rest
  | none, .mdat _ :: rest => payloadEntryCount none rest
  | pending, .other :: rest => payloadEntryCount pending rest

/-- Replay of the bounds check of one run: true when some entry's byte
range `[off, off+size)`, with the cursor accumulated over the declared
sizes, extends past the `mdat` length `L`. -/
def runEntriesOverrun (default_sample_size L : Nat) : Nat → List TrunEntry → Bool
  | _, [] => false
  | off, e :: es =>
    decide (off + e.size.getD default_sample_size > L) ||
      runEntriesOverrun default_sample_size L (off + e.size.getD default_sample_size) es

/-- Replay of the bounds check across a `moof`'s track fragments, the
cursor carried over contiguously. -/
def trafsOverrun (L : Nat) : Nat → List Traf → Bool
  | _, [] => false
  | off, t :: ts =>
    runEntriesOverrun (trafDSize t) L off (trafEntries t) ||
      trafsOverrun L (off + trafSizeSum t) ts

/-- True when some run entry of some paired moof/mdat pair of the
payload has a computed byte range extending past its `mdat` length. -/
def payloadOverrun : Option Moof → List Atom → Bool
  | _, [] => false
  | _, .moof m :: rest => payloadOverrun (some m) rest
  | some m, .mdat d :: rest =>
    trafsOverrun d.length 0 m.traf || payloadOverrun none rest
  | none, .mdat _ :: rest => payloadOverrun none rest
  | pending, .other :: rest => payloadOverrun pending rest

/-- True when some track fragment of the `moof` has a first run box
with an empty entry list. -/
def moofHasEmptyRun (m : Moof) : Bool :=
  m.traf.any fun t =>
    match t.trun with
    | [] => false
    | trun :: _ => trun.entries.isEmpty

/-- True when some paired moof/mdat pair of the payload contains a
track fragment whose first run box has an empty entry list. -/
def payloadHasEmptyRun : Option Moof → List Atom → Bool
  | _, [] => false
  | _, .moof m :: rest => payloadHasEmptyRun (some m) rest
  | some m, .mdat _ :: rest => moofHasEmptyRun m || payloadHasEmptyRun none rest
  | none, .mdat _ :: rest => payloadHasEmptyRun none rest
  | pending, .other :: rest => payloadHasEmptyRun pending rest

/-- True when every track fragment of every `moof` box in the payload
declares at least one run box — the precondition under which the
extractor's unchecked `traf.trun[0]` index cannot panic. -/
def noEmptyTrunLists (payload : List Atom) : Bool :=
  payload.all fun a =>
    match a with
    | .moof m => m.traf.all fun t => !t.trun.isEmpty
    | _ => true

/-- A `moof` whose track fragments all have at least one run box. -/
def moofTrunsNonempty (m : Moof) : Bool := m.traf.all fun t => !t.trun.isEmpty

/-- Lift of `moofTrunsNonempty` to the pending slot of the scanner. -/
def pendingTrunsNonempty : Option Moof → Bool
  | none => true
  | some m => moofTrunsNonempty m

/-- Erase the explicit data offset of a run box. -/
def eraseTrunOffset (trun : Trun) : Trun := ⟨none, trun.entries⟩

/-- Erase all explicit data offsets of a track fragment. -/
def eraseTrafOffsets (t : Traf) : Traf := ⟨t.tfhd, t.tfdt, t.trun.map eraseTrunOffset⟩

/-- Erase all explicit data offsets of a `moof`. -/
def eraseMoofOffsets (m : Moof) : Moof := ⟨m.traf.map eraseTrafOffsets⟩

/-- Erase all explicit per-run data offsets of a decoded box. -/
def eraseAtomOffsets : Atom → Atom
  | .moof m => .moof (eraseMoofOffsets m)
  | a => a

/-- Video track fragment of the running example: track id 1, two
entries of sizes 1 and 2, the first with duration 3, the second with a
composition offset 4. -/
def exTrafVideo : Traf :=
  ⟨⟨1, none⟩, none, [⟨none, [⟨some 1, some 3, none⟩, ⟨some 2, none, some 4⟩]⟩]⟩

/-- Audio track fragment of the running example: track id 2, one entry
of size 1 and duration 5; its run box declares an explicit data offset
(7) which the demuxer ignores. -/
def exTrafAudio : Traf := ⟨⟨2, none⟩, none, [⟨some 7, [⟨some 1, some 5, none⟩]⟩]⟩

/-- A well-formed example payload: one `moof` with a video and an audio
track fragment, an ignored unknown box, and the matching 4-byte `mdat`. -/
def exPayload : List Atom :=
  [.moof ⟨[exTrafVideo, exTrafAudio]⟩, .other, .mdat [10, 11, 12, 13]]

/-- The segment `parse_segment` returns on `exPayload`. -/
def exSegment : ParsedSegment :=
  ⟨[⟨[10], some 0, some 3, false⟩, ⟨[11, 12], some 7, none, false⟩],
    [⟨[13], some 0, some 5, false⟩]⟩

/-- Payload with an overrunning entry: one video track fragment whose
single entry declares size 2 against a 1-byte `mdat`. -/
def exOverrunPayload : List Atom :=
  [.moof ⟨[⟨⟨1, none⟩, none, [⟨none, [⟨some 2, none, none⟩]⟩]⟩]⟩, .mdat [0]]

/-- Payload where a track fragment with an empty run-box list precedes
a track fragment whose entry overruns the empty `mdat`: the extractor
panics on the first fragment before the bounds error can be raised. -/
def panicBeforeOverrunPayload : List Atom :=
  [.moof ⟨[⟨⟨2, none⟩, none, []⟩,
    ⟨⟨1, none⟩, none, [⟨none, [⟨some 5, none, none⟩]⟩]⟩]⟩, .mdat []]

/-- Payload whose single track fragment has a first run box with an
empty entry list. -/
def exEmptyRunPayload : List Atom :=
  [.moof ⟨[⟨⟨1, none⟩, none, [⟨none, []⟩]⟩]⟩, .mdat []]

/-- Payload where a track fragment with an empty run-box list precedes
a track fragment whose first run box has an empty entry list: the
extractor panics before the empty-run error can be raised. -/
def panicBeforeEmptyRunPayload : List Atom :=
  [.moof ⟨[⟨⟨2, none⟩, none, []⟩, ⟨⟨1, none⟩, none, [⟨none, []⟩]⟩]⟩, .mdat []]

/-- Payload whose track fragment declares a base decode time of 2^32
and one zero-sized sample with no duration and no composition offset. -/
def bigBasePayload : List Atom :=
  [.moof ⟨[⟨⟨1, none⟩, some ⟨2 ^ 32⟩, [⟨none, [⟨some 0, none, none⟩]⟩]⟩]⟩, .mdat []]

/-- Track fragment for the timestamp example: base decode time 100, a
first entry with duration 10 and a second entry with composition
offset 7, both of size 0. -/
def exTsTraf : Traf :=
  ⟨⟨1, none⟩, some ⟨100⟩, [⟨none, [⟨some 0, some 10, none⟩, ⟨some 0, none, some 7⟩]⟩]⟩

/-- Sample holding one length-prefixed NAL unit whose payload byte 0x65
has H.264 type 5 (IDR). -/
def exIdrSample : List Nat := [0, 0, 0, 1, 0x65]

/-- Sample holding one length-prefixed NAL unit whose payload byte 0x41
has H.264 type 1 (non-IDR slice). -/
def exSliceSample : List Nat := [0, 0, 0, 1, 0x41]

/-- The second entry of `exTsTraf`'s run. -/
def exTsEntry : TrunEntry := ⟨some 0, none, some 7⟩

/-- The pair of frame vectors the traf loop produces on `exTsTraf`
against an empty `mdat`. -/
def exTsResult : List DemuxedFrame × List DemuxedFrame :=
  ([⟨[], some 100, some 10, false⟩, ⟨[], some 117, none, false⟩], [])

/-- The pair of frame vectors the traf loop produces on the running
example's two track fragments. -/
def exTrafResult : List DemuxedFrame × List DemuxedFrame :=
  ([⟨[10], some 0, some 3, false⟩, ⟨[11, 12], some 7, none, false⟩],
    [⟨[13], some 0, some 5, false⟩])

/-- When the replayed bounds check reports an overrun, the entries loop
returns an error. -/
theorem entriesLoop_overrun_err (hevc isv : Bool) (mdat : List Nat) (ds : Nat) :
    ∀ (entries : List TrunEntry) (off acc idx : Nat) (vf af : List DemuxedFrame),
    runEntriesOverrun ds mdat.length off entries = true →
    ∃ e, entriesLoop hevc isv mdat ds off acc idx vf af entries = .error e := by
  intro entries
  induction entries with
  | nil => intro off acc idx vf af h; simp [runEntriesOverrun] at h
  | cons e es ih =>
    intro off acc idx vf af h
    simp only [runEntriesOverrun, Bool.or_eq_true, decide_eq_true_eq] at h
    by_cases hb : off + e.size.getD ds > mdat.length
    · exact ⟨.sampleExceedsMdat idx (e.size.getD ds) mdat.length, by
        simp [entriesLoop, hb]⟩
    · rcases h with h | h
      · exact absurd h hb
      · simpa [entriesLoop, hb] using
          ih (off + e.size.getD ds) (accumulated_time_step acc e.duration) (idx + 1) _ _ h

/-- When the replayed bounds check reports no overrun, the entries loop
succeeds, advances the cursor by the sum of the declared sizes, and
appends exactly the spec-side frames to the track's output vector. -/
theorem entriesLoop_ok_char (hevc isv : Bool) (mdat : List Nat) (ds : Nat) :
    ∀ (entries : List TrunEntry) (off acc idx : Nat) (vf af : List DemuxedFrame),
    runEntriesOverrun ds mdat.length off entries = false →
    entriesLoop hevc isv mdat ds off acc idx vf af entries =
      .ok (off + runSizeSum ds entries,
        vf ++ (if isv then specRunFrames hevc isv mdat ds off acc entries else []),
        af ++ (if isv then [] else specRunFrames hevc isv mdat ds off acc entries)) := by
  intro entries
  induction entries with
  | nil =>
    intro off acc idx vf af _
    simp [entriesLoop, runSizeSum, specRunFrames]
  | cons e es ih =>
    intro off acc idx vf af h
    simp only [runEntriesOverrun, Bool.or_eq_false_iff, decide_eq_false_iff_not] at h
    obtain ⟨h1, h2⟩ := h
    have hrec := ih (off + e.size.getD ds) (accumulated_time_step acc e.duration)
      (idx + 1)
      (vf ++ (if isv then
        [⟨(mdat.drop off).take (e.size.getD ds),
          some (sample_timestamp_val acc e.cts), e.duration,
          if ((mdat.drop off).take (e.size.getD ds)).length ≥ 5 then
            is_keyframe_sample hevc ((mdat.drop off).take (e.size.getD ds))
          else false⟩]
      else []))
      (af ++ (if isv then [] else
        [⟨(mdat.drop off).take (e.size.getD ds),
          some (sample_timestamp_val acc e.cts), e.duration, false⟩])) h2
    cases isv <;>
      simp only [entriesLoop, if_neg h1, Bool.false_eq_true, if_false, if_true,
        runSizeSum, specRunFrames] <;>
      simp only [Bool.false_eq_true, if_false, if_true] at hrec <;>
      simp only [List.append_nil] at hrec ⊢ <;>
      rw [hrec] <;>
      simp [List.append_assoc, Nat.add_assoc, ge_iff_le]

/-- When every track fragment declares at least one run box, the traf
loop cannot panic. -/
theorem trafLoop_no_panic (hevc : Bool) (mdat : List Nat) :
    ∀ (trafs : List Traf) (off : Nat) (vf af : List DemuxedFrame),
    (∀ t ∈ trafs, t.trun ≠ []) →
    trafLoop hevc mdat off vf af trafs ≠ .panicked := by
  intro trafs
  induction trafs with
  | nil => intro off vf af _; simp [trafLoop]
  | cons t ts ih =>
    intro off vf af h
    have ht : t.trun ≠ [] := h t (by simp)
    rcases htr : t.trun with _ | ⟨trun, tl⟩
    · exact absurd htr ht
    · simp only [trafLoop, htr]
      by_cases he : trun.entries.isEmpty
      · simp [he]
      · simp only [he, Bool.false_eq_true, if_false]
        rcases hres : entriesLoop hevc (t.tfhd.track_id == 1) mdat
            (t.tfhd.default_sample_size.getD 0) off
            (match t.tfdt with
              | some tfdt => tfdt.base_media_decode_time
              | none => 0) 0 vf af trun.entries with e | ⟨o, vf2, af2⟩
        · simp
        · exact ih o vf2 af2 fun t' ht' => h t' (by simp [ht'])

/-- A successful traf loop returns exactly the accumulated vectors
extended with the spec-side frames, the cursor threaded contiguously. -/
theorem trafLoop_ok_char (hevc : Bool) (mdat : List Nat) :
    ∀ (trafs : List Traf) (off : Nat) (vf af : List DemuxedFrame) r,
    trafLoop hevc mdat off vf af trafs = .ok r →
    r = (vf ++ specTrafsVideo hevc mdat off trafs,
      af ++ specTrafsAudio hevc mdat off trafs) := by
  intro trafs
  induction trafs with
  | nil =>
    intro off vf af r h
    simp only [trafLoop, Outcome.ok.injEq] at h
    simp [specTrafsVideo, specTrafsAudio, ← h]
  | cons t ts ih =>
    intro off vf af r h
    rcases htr : t.trun with _ | ⟨trun, tl⟩
    · simp [trafLoop, htr] at h
    · simp only [trafLoop, htr] at h
      by_cases he : trun.entries.isEmpty
      · simp [he] at h
      · simp only [he, Bool.false_eq_true, if_false] at h
        rcases hres : entriesLoop hevc (t.tfhd.track_id == 1) mdat
            (t.tfhd.default_sample_size.getD 0) off
            (match t.tfdt with
              | some tfdt => tfdt.base_media_decode_time
              | none => 0) 0 vf af trun.entries with e | ⟨o, vf2, af2⟩
        · rw [hres] at h; cases h
        · rw [hres] at h
          have hov : runEntriesOverrun (t.tfhd.default_sample_size.getD 0)
              mdat.length off trun.entries = false := by
            by_contra h'
            obtain ⟨e, hee⟩ := entriesLoop_overrun_err hevc (t.tfhd.track_id == 1)
              mdat (t.tfhd.default_sample_size.getD 0) trun.entries off
              (match t.tfdt with
                | some tfdt => tfdt.base_media_decode_time
                | none => 0) 0 vf af (eq_true_of_ne_false h')
            rw [hee] at hres
            cases hres
          have hchar := entriesLoop_ok_char hevc (t.tfhd.track_id == 1) mdat
            (t.tfhd.default_sample_size.getD 0) trun.entries off
            (match t.tfdt with
              | some tfdt => tfdt.base_media_decode_time
              | none => 0) 0 vf af hov
          rw [hchar] at hres
          simp only [Except.ok.injEq, Prod.mk.injEq] at hres
          obtain ⟨ho, hvf, haf⟩ := hres
          subst ho; subst hvf; subst haf
          have hrec := ih _ _ _ r h
          have hv : trafVideo t = (t.tfhd.track_id == 1) := rfl
          have hbase : trafBase t =
              (match t.tfdt with
                | some tfdt => tfdt.base_media_decode_time
                | none => 0) := rfl
          have hds : trafDSize t = t.tfhd.default_sample_size.getD 0 := rfl
          have hent : trafEntries t = trun.entries := by
            simp [trafEntries, htr]
          have hsz : trafSizeSum t = runSizeSum (t.tfhd.default_sample_size.getD 0) trun.entries := by
            simp [trafSizeSum, hds, hent]
          rw [hrec]
          simp only [specTrafsVideo, specTrafsAudio, hv, hbase, hds, hent, hsz,
        List.append_assoc]
          cases hvt : t.tfhd.track_id == 1 <;> simp [hvt]

/-- When every track fragment declares a run box and the replayed
bounds check finds an overrun, the traf loop returns an error. -/
theorem trafLoop_overrun_err (hevc : Bool) (mdat : List Nat) :
    ∀ (trafs : List Traf) (off : Nat) (vf af : List DemuxedFrame),
    (∀ t ∈ trafs, t.trun ≠ []) →
    trafsOverrun mdat.length off trafs = true →
    ∃ e, trafLoop hevc mdat off vf af trafs = .error e := by
  intro trafs
  induction trafs with
  | nil => intro off vf af _ h; simp [trafsOverrun] at h
  | cons t ts ih =>
    intro off vf af hne h
    have ht : t.trun ≠ [] := hne t (by simp)
    rcases htr : t.trun with _ | ⟨trun, tl⟩
    · exact absurd htr ht
    · have hent : trafEntries t = trun.entries := by simp [trafEntries, htr]
      by_cases he : trun.entries.isEmpty
      · exact ⟨.noEntriesInTrun, by simp [trafLoop, htr, he]⟩
      · simp only [trafsOverrun, Bool.or_eq_true] at h
        by_cases hh : runEntriesOverrun (trafDSize t) mdat.length off (trafEntries t) = true
        · obtain ⟨e, hee⟩ := entriesLoop_overrun_err hevc (t.tfhd.track_id == 1) mdat
            (t.tfhd.default_sample_size.getD 0) trun.entries off
            (match t.tfdt with
              | some tfdt => tfdt.base_media_decode_time
              | none => 0) 0 vf af (by rw [hent] at hh; exact hh)
          exact ⟨e, by simp [trafLoop, htr, he, hee]⟩
        · have htl : trafsOverrun mdat.length (off + trafSizeSum t) ts = true := by
            rcases h with h | h
            · exact absurd h hh
            · exact h
          have hov : runEntriesOverrun (t.tfhd.default_sample_size.getD 0)
              mdat.length off trun.entries = false := by
            rw [hent] at hh
            exact Bool.eq_false_iff.mpr hh
          have hchar := entriesLoop_ok_char hevc (t.tfhd.track_id == 1) mdat
            (t.tfhd.default_sample_size.getD 0) trun.entries off
            (match t.tfdt with
              | some tfdt => tfdt.base_media_decode_time
              | none => 0) 0 vf af hov
          have hsz : off + runSizeSum (t.tfhd.default_sample_size.getD 0) trun.entries =
              off + trafSizeSum t := by
            simp [trafSizeSum, trafDSize, hent]
          obtain ⟨e, hee⟩ := ih (off + trafSizeSum t) _ _
            (fun t' ht' => hne t' (by simp [ht'])) htl
          refine ⟨e, ?_⟩
          simp only [trafLoop, htr, he, Bool.false_eq_true, if_false]
          rw [hchar, hsz]
          exact hee

/-- When every track fragment declares a run box and some fragment's
first run box has an empty entry list, the traf loop returns an
error. -/
theorem trafLoop_emptyrun_err (hevc : Bool) (mdat : List Nat) :
    ∀ (trafs : List Traf) (off : Nat) (vf af : List DemuxedFrame),
    (∀ t ∈ trafs, t.trun ≠ []) →
    (trafs.any fun t =>
      match t.trun with
      | [] => false
      | trun :: _ => trun.entries.isEmpty) = true →
    ∃ e, trafLoop hevc mdat off vf af trafs = .error e := by
  intro trafs
  induction trafs with
  | nil => intro off vf af _ h; simp at h
  | cons t ts ih =>
    intro off vf af hne h
    have ht : t.trun ≠ [] := hne t (by simp)
    rcases htr : t.trun with _ | ⟨trun, tl⟩
    · exact absurd htr ht
    · by_cases he : trun.entries.isEmpty
      · exact ⟨.noEntriesInTrun, by simp [trafLoop, htr, he]⟩
      · have htl : (ts.any fun t =>
            match t.trun with
            | [] => false
            | trun :: _ => trun.entries.isEmpty) = true := by
          simp only [List.any_cons, Bool.or_eq_true] at h
          rcases h with h | h
          · rw [htr] at h; exact absurd h he
          · exact h
        simp only [trafLoop, htr, he, Bool.false_eq_true, if_false]
        rcases hres : entriesLoop hevc (t.tfhd.track_id == 1) mdat
            (t.tfhd.default_sample_size.getD 0) off
            (match t.tfdt with
              | some tfdt => tfdt.base_media_decode_time
              | none => 0) 0 vf af trun.entries with e | ⟨o, vf2, af2⟩
        · exact ⟨e, rfl⟩
        · exact ih o vf2 af2 (fun t' ht' => hne t' (by simp [ht'])) htl

/-- A successful scanner loop returns exactly the accumulated vectors
extended with the spec-side frames of the paired moof/mdat pairs. -/
theorem parseLoop_ok_char (hevc : Bool) :
    ∀ (atoms : List Atom) (pending : Option Moof) (vf af : List DemuxedFrame) seg,
    parseLoop hevc pending vf af atoms = .ok seg →
    seg.video_frames = vf ++ specPayloadVideo hevc pending atoms ∧
    seg.audio_frames = af ++ specPayloadAudio hevc pending atoms := by
  intro atoms
  induction atoms with
  | nil =>
    intro pending vf af seg h
    simp only [parseLoop, Outcome.ok.injEq] at h
    subst h
    simp [specPayloadVideo, specPayloadAudio]
  | cons a rest ih =>
    intro pending vf af seg h
    cases a with
    | moof m =>
      simp only [parseLoop] at h
      simpa [specPayloadVideo, specPayloadAudio] using ih (some m) vf af seg h
    | other =>
      simp only [parseLoop] at h
      cases pending with
      | none => simpa [specPayloadVideo, specPayloadAudio] using ih none vf af seg h
      | some m => simpa [specPayloadVideo, specPayloadAudio] using ih (some m) vf af seg h
    | mdat d =>
      cases pending with
      | none =>
        simp only [parseLoop] at h
        simpa [specPayloadVideo, specPayloadAudio] using ih none vf af seg h
      | some m =>
        simp only [parseLoop] at h
        rcases hres : extract_frames_from_mdat_enhanced hevc d m vf af with ⟨vf2, af2⟩ | e | _
        · rw [hres] at h
          have hx := trafLoop_ok_char hevc d m.traf 0 vf af (vf2, af2) hres
          simp only [Prod.mk.injEq] at hx
          obtain ⟨hvf, haf⟩ := hx
          subst hvf; subst haf
          have := ih none _ _ seg h
          simpa [specPayloadVideo, specPayloadAudio, List.append_assoc] using this
        · rw [hres] at h; cases h
        · rw [hres] at h; cases h

/-- When no track fragment of any `moof` (in the remaining boxes or
pending) lacks a run box, the scanner loop cannot panic. -/
theorem parseLoop_no_panic (hevc : Bool) :
    ∀ (atoms : List Atom) (pending : Option Moof) (vf af : List DemuxedFrame),
    noEmptyTrunLists atoms = true →
    pendingTrunsNonempty pending = true →
    parseLoop hevc pending vf af atoms ≠ .panicked := by
  intro atoms
  induction atoms with
  | nil => intro pending vf af _ _; simp [parseLoop]
  | cons a rest ih =>
    intro pending vf af hall hp
    rw [noEmptyTrunLists, List.all_cons, Bool.and_eq_true] at hall
    obtain ⟨hhd, htl⟩ := hall
    cases a with
    | moof m =>
      simp only [parseLoop]
      exact ih (some m) vf af htl (by simpa [pendingTrunsNonempty, moofTrunsNonempty] using hhd)
    | other =>
      simp only [parseLoop]
      cases pending with
      | none => exact ih none vf af htl rfl
      | some m => exact ih (some m) vf af htl hp
    | mdat d =>
      cases pending with
      | none =>
        simp only [parseLoop]
        exact ih none vf af htl rfl
      | some m =>
        have hm : ∀ t ∈ m.traf, t.trun ≠ [] := by
          intro t htm
          have := hp
          simp only [pendingTrunsNonempty, moofTrunsNonempty, List.all_eq_true] at this
          have := this t htm
          simpa [List.isEmpty_iff] using this
        simp only [parseLoop]
        rcases hres : extract_frames_from_mdat_enhanced hevc d m vf af with ⟨vf2, af2⟩ | e | _
        · exact ih none vf2 af2 htl rfl
        · simp
        · exact absurd hres (trafLoop_no_panic hevc d m.traf 0 vf af hm)

/-- When no track fragment lacks a run box and the replayed bounds
check finds an overrun in a paired moof/mdat pair, the scanner loop
returns an error. -/
theorem parseLoop_overrun_err (hevc : Bool) :
    ∀ (atoms : List Atom) (pending : Option Moof) (vf af : List DemuxedFrame),
    noEmptyTrunLists atoms = true →
    pendingTrunsNonempty pending = true →
    payloadOverrun pending atoms = true →
    ∃ e, parseLoop hevc pending vf af atoms = .error e := by
  intro atoms
  induction atoms with
  | nil => intro pending vf af _ _ h; simp [payloadOverrun] at h
  | cons a rest ih =>
    intro pending vf af hall hp h
    rw [noEmptyTrunLists, List.all_cons, Bool.and_eq_true] at hall
    obtain ⟨hhd, htl⟩ := hall
    cases a with
    | moof m =>
      simp only [parseLoop]
      exact ih (some m) vf af htl
        (by simpa [pendingTrunsNonempty, moofTrunsNonempty] using hhd)
        (by simpa [payloadOverrun] using h)
    | other =>
      simp only [parseLoop]
      cases pending with
      | none => exact ih none vf af htl rfl (by simpa [payloadOverrun] using h)
      | some m => exact ih (some m) vf af htl hp (by simpa [payloadOverrun] using h)
    | mdat d =>
      cases pending with
      | none =>
        simp only [parseLoop]
        exact ih none vf af htl rfl (by simpa [payloadOverrun] using h)
      | some m =>
        have hm : ∀ t ∈ m.traf, t.trun ≠ [] := by
          intro t htm
          simp only [pendingTrunsNonempty, moofTrunsNonempty, List.all_eq_true] at hp
          have := hp t htm
          simpa [List.isEmpty_iff] using this
        simp only [payloadOverrun, Bool.or_eq_true] at h
        by_cases hov : trafsOverrun d.length 0 m.traf = true
        · obtain ⟨e, hee⟩ := trafLoop_overrun_err hevc d m.traf 0 vf af hm hov
          exact ⟨e, by simp only [parseLoop, extract_frames_from_mdat_enhanced] at hee ⊢; rw [hee]⟩
        · have hrest : payloadOverrun none rest = true := by
            rcases h with h | h
            · exact absurd h hov
            · exact h
          simp only [parseLoop]
          rcases hres : extract_frames_from_mdat_enhanced hevc d m vf af with ⟨vf2, af2⟩ | e | _
          · exact ih none vf2 af2 htl rfl hrest
          · exact ⟨e, rfl⟩
          · exact absurd hres (trafLoop_no_panic hevc d m.traf 0 vf af hm)

/-- When no track fragment lacks a run box and some paired moof/mdat
pair holds a fragment whose first run box has no entries, the scanner
loop returns an error. -/
theorem parseLoop_emptyrun_err (hevc : Bool) :
    ∀ (atoms : List Atom) (pending : Option Moof) (vf af : List DemuxedFrame),
    noEmptyTrunLists atoms = true →
    pendingTrunsNonempty pending = true →
    payloadHasEmptyRun pending atoms = true →
    ∃ e, parseLoop hevc pending vf af atoms = .error e := by
  intro atoms
  induction atoms with
  | nil => intro pending vf af _ _ h; simp [payloadHasEmptyRun] at h
  | cons a rest ih =>
    intro pending vf af hall hp h
    rw [noEmptyTrunLists, List.all_cons, Bool.and_eq_true] at hall
    obtain ⟨hhd, htl⟩ := hall
    cases a with
    | moof m =>
      simp only [parseLoop]
      exact ih (some m) vf af htl
        (by simpa [pendingTrunsNonempty, moofTrunsNonempty] using hhd)
        (by simpa [payloadHasEmptyRun] using h)
    | other =>
      simp only [parseLoop]
      cases pending with
      | none => exact ih none vf af htl rfl (by simpa [payloadHasEmptyRun] using h)
      | some m => exact ih (some m) vf af htl hp (by simpa [payloadHasEmptyRun] using h)
    | mdat d =>
      cases pending with
      | none =>
        simp only [parseLoop]
        exact ih none vf af htl rfl (by simpa [payloadHasEmptyRun] using h)
      | some m =>
        have hm : ∀ t ∈ m.traf, t.trun ≠ [] := by
          intro t htm
          simp only [pendingTrunsNonempty, moofTrunsNonempty, List.all_eq_true] at hp
          have := hp t htm
          simpa [List.isEmpty_iff] using this
        simp only [payloadHasEmptyRun, Bool.or_eq_true] at h
        by_cases hemp : moofHasEmptyRun m = true
        · obtain ⟨e, hee⟩ := trafLoop_emptyrun_err hevc d m.traf 0 vf af hm
            (by simpa [moofHasEmptyRun] using hemp)
          exact ⟨e, by simp only [parseLoop, extract_frames_from_mdat_enhanced] at hee ⊢; rw [hee]⟩
        · have hrest : payloadHasEmptyRun none rest = true := by
            rcases h with h | h
            · exact absurd h hemp
            · exact h
          simp only [parseLoop]
          rcases hres : extract_frames_from_mdat_enhanced hevc d m vf af with ⟨vf2, af2⟩ | e | _
          · exact ih none vf2 af2 htl rfl hrest
          · exact ⟨e, rfl⟩
          · exact absurd hres (trafLoop_no_panic hevc d m.traf 0 vf af hm)

/-- Each run entry yields exactly one spec-side frame. -/
theorem specRunFrames_length (hevc isv : Bool) (mdat : List Nat) (ds : Nat) :
    ∀ (es : List TrunEntry) (off acc : Nat),
    (specRunFrames hevc isv mdat ds off acc es).length = es.length := by
  intro es
  induction es with
  | nil => intro off acc; simp [specRunFrames]
  | cons e es ih => intro off acc; simp [specRunFrames, ih]

/-- The spec-side video and audio frames of a `moof` together count one
frame per first-run entry. -/
theorem specTrafs_length (hevc : Bool) (mdat : List Nat) :
    ∀ (ts : List Traf) (off : Nat),
    (specTrafsVideo hevc mdat off ts).length + (specTrafsAudio hevc mdat off ts).length =
      (ts.map fun t => (trafEntries t).length).sum := by
  intro ts
  induction ts with
  | nil => intro off; simp [specTrafsVideo, specTrafsAudio]
  | cons t ts ih =>
    intro off
    cases hv : trafVideo t <;>
      simp [specTrafsVideo, specTrafsAudio, hv, specRunFrames_length, ← ih (off + trafSizeSum t)] <;>
      omega

/-- The spec-side frames of a payload together count one frame per
paired first-run entry. -/
theorem specPayload_count (hevc : Bool) :
    ∀ (atoms : List Atom) (pending : Option Moof),
    (specPayloadVideo hevc pending atoms).length + (specPayloadAudio hevc pending atoms).length =
      payloadEntryCount pending atoms := by
  intro atoms
  induction atoms with
  | nil => intro pending; simp [specPayloadVideo, specPayloadAudio, payloadEntryCount]
  | cons a rest ih =>
    intro pending
    cases a with
    | moof m => simp [specPayloadVideo, specPayloadAudio, payloadEntryCount, ih]
    | other =>
      cases pending <;> simp [specPayloadVideo, specPayloadAudio, payloadEntryCount, ih]
    | mdat d =>
      cases pending with
      | none => simp [specPayloadVideo, specPayloadAudio, payloadEntryCount, ih]
      | some m =>
        simp only [specPayloadVideo, specPayloadAudio, payloadEntryCount,
          List.length_append]
        have := specTrafs_length hevc d m.traf 0
        have h2 := ih none
        simp only [moofEntryCount]
        omega

/-- Wrapping a value to u64 before adding does not change the low 32
bits of the sum. -/
theorem mod64_add_mod32 (x y : Nat) : (x % 2 ^ 64 + y) % 2 ^ 32 = (x + y) % 2 ^ 32 := by
  conv_lhs => rw [Nat.add_mod]
  rw [Nat.mod_mod_of_dvd x (by norm_num : (2 : Nat) ^ 32 ∣ 2 ^ 64)]
  rw [← Nat.add_mod]

/-- The timestamp of the `i`-th spec-side frame of a run seeded with
accumulated time `acc`: the seed plus the declared durations of the
earlier entries plus the entry's composition offset (0 when absent),
reduced modulo 2^32. -/
theorem specRunFrames_timestamp (hevc isv : Bool) (mdat : List Nat) (ds : Nat) :
    ∀ (es : List TrunEntry) (off acc i : Nat) (e : TrunEntry),
    es.get? i = some e →
    ((specRunFrames hevc isv mdat ds off acc es).get? i).map (fun f => f.timestamp) =
      some (some ((acc + durSum (es.take i) + e.cts.getD 0) % 2 ^ 32)) := by
  intro es
  induction es with
  | nil => intro off acc i e h; simp at h
  | cons e0 es ih =>
    intro off acc i e h
    cases i with
    | zero =>
      simp only [List.get?_cons_zero, Option.some.injEq] at h
      subst h
      cases hc : e0.cts with
      | none => simp [specRunFrames, sample_timestamp_val, hc, asU32, durSum]
      | some c =>
        simp only [specRunFrames, List.get?_cons_zero, List.take_zero, durSum,
          List.map_nil, List.sum_nil, Nat.add_zero, sample_timestamp_val, hc, asU32,
          u64wrap, Option.getD_some]
        simp only [Option.map, Option.bind, Option.some.injEq]
        exact Nat.mod_mod_of_dvd _ (by norm_num : (2 : Nat) ^ 32 ∣ 2 ^ 64)
    | succ i =>
      simp only [List.get?_cons_succ] at h
      have := ih (off + e0.size.getD ds) (accumulated_time_step acc e0.duration) i e h
      simp only [specRunFrames, List.get?_cons_succ, List.take_succ_cons]
      rw [this]
      simp only [Option.some.injEq]
      have hd : durSum (e0 :: es.take i) = e0.duration.getD 0 + durSum (es.take i) := by
        simp [durSum]
      rw [hd]
      cases hdur : e0.duration with
      | none => simp [accumulated_time_step, hdur]
      | some d =>
        simp only [accumulated_time_step, hdur, u64wrap, Option.getD_some, Nat.add_assoc]
        rw [mod64_add_mod32]
        congr 1
        omega

/-- Every spec-side run frame carries a present timestamp. -/
theorem specRunFrames_ts_isSome (hevc isv : Bool) (mdat : List Nat) (ds : Nat) :
    ∀ (es : List TrunEntry) (off acc : Nat) (f : DemuxedFrame),
    f ∈ specRunFrames hevc isv mdat ds off acc es → f.timestamp.isSome = true := by
  intro es
  induction es with
  | nil => intro off acc f h; simp [specRunFrames] at h
  | cons e es ih =>
    intro off acc f h
    simp only [specRunFrames, List.mem_cons] at h
    rcases h with h | h
    · subst h; simp
    · exact ih _ _ f h

/-- Every spec-side video frame of a `moof` carries a present
timestamp. -/
theorem specTrafsVideo_ts_isSome (hevc : Bool) (mdat : List Nat) :
    ∀ (ts : List Traf) (off : Nat) (f : DemuxedFrame),
    f ∈ specTrafsVideo hevc mdat off ts → f.timestamp.isSome = true := by
  intro ts
  induction ts with
  | nil => intro off f h; simp [specTrafsVideo] at h
  | cons t ts ih =>
    intro off f h
    simp only [specTrafsVideo, List.mem_append] at h
    rcases h with h | h
    · cases hv : trafVideo t
      · rw [hv] at h; simp at h
      · rw [hv] at h
        simp only [if_true] at h
        exact specRunFrames_ts_isSome hevc true mdat (trafDSize t) (trafEntries t) off
          (trafBase t) f h
    · exact ih _ f h

/-- Every spec-side audio frame of a `moof` carries a present
timestamp. -/
theorem specTrafsAudio_ts_isSome (hevc : Bool) (mdat : List Nat) :
    ∀ (ts : List Traf) (off : Nat) (f : DemuxedFrame),
    f ∈ specTrafsAudio hevc mdat off ts → f.timestamp.isSome = true := by
  intro ts
  induction ts with
  | nil => intro off f h; simp [specTrafsAudio] at h
  | cons t ts ih =>
    intro off f h
    simp only [specTrafsAudio, List.mem_append] at h
    rcases h with h | h
    · cases hv : trafVideo t
      · rw [hv] at h
        simp only [Bool.false_eq_true, if_false] at h
        exact specRunFrames_ts_isSome hevc false mdat (trafDSize t) (trafEntries t) off
          (trafBase t) f h
      · rw [hv] at h; simp at h
    · exact ih _ f h

/-- Every spec-side video frame of a payload carries a present
timestamp. -/
theorem specPayloadVideo_ts_isSome (hevc : Bool) :
    ∀ (atoms : List Atom) (pending : Option Moof) (f : DemuxedFrame),
    f ∈ specPayloadVideo hevc pending atoms → f.timestamp.isSome = true := by
  intro atoms
  induction atoms with
  | nil => intro pending f h; simp [specPayloadVideo] at h
  | cons a rest ih =>
    intro pending f h
    cases a with
    | moof m => cases pending <;> exact ih (some m) f h
    | other => cases pending <;> exact ih _ f h
    | mdat d =>
      cases pending with
      | none => exact ih none f h
      | some m =>
        simp only [specPayloadVideo, List.mem_append] at h
        rcases h with h | h
        · exact specTrafsVideo_ts_isSome hevc d m.traf 0 f h
        · exact ih none f h

/-- Every spec-side audio frame of a payload carries a present
timestamp. -/
theorem specPayloadAudio_ts_isSome (hevc : Bool) :
    ∀ (atoms : List Atom) (pending : Option Moof) (f : DemuxedFrame),
    f ∈ specPayloadAudio hevc pending atoms → f.timestamp.isSome = true := by
  intro atoms
  induction atoms with
  | nil => intro pending f h; simp [specPayloadAudio] at h
  | cons a rest ih =>
    intro pending f h
    cases a with
    | moof m => cases pending <;> exact ih (some m) f h
    | other => cases pending <;> exact ih _ f h
    | mdat d =>
      cases pending with
      | none => exact ih none f h
      | some m =>
        simp only [specPayloadAudio, List.mem_append] at h
        rcases h with h | h
        · exact specTrafsAudio_ts_isSome hevc d m.traf 0 f h
        · exact ih none f h

/-- Head of a slice `[i, i+k)` of a list (k at least 1). -/
theorem headI_take_drop : ∀ (s : List Nat) (i k : Nat), i < s.length → 1 ≤ k →
    ((s.drop i).take k).headI = s.getD i 0 := by
  intro s
  induction s with
  | nil => intro i k h _; simp at h
  | cons a t ih =>
    intro i k h hk
    cases i with
    | zero =>
      cases k with
      | zero => omega
      | succ k => simp [List.getD]
    | succ i =>
      simp only [List.drop_succ_cons, List.getD_cons_succ]
      exact ih i k (by simpa using h) hk

/-- If some parsed NAL unit has H.264 type 5, the H.264 scan returns
true, whatever the state of the slice flag. -/
theorem nalUnits_idr_scan (s : List Nat) :
    ∀ (fuel offset : Nat) (fs : Bool),
    (∃ u ∈ nalUnitsAux s fuel offset, nalType264 u = 5) →
    keyframeScan false s offset fs = true := by
  intro fuel
  induction fuel with
  | zero => intro offset fs h; simp [nalUnitsAux] at h
  | succ fuel ih =>
    intro offset fs h
    rw [nalUnitsAux] at h
    by_cases h4 : offset + 4 ≤ s.length
    · rw [if_pos h4] at h
      by_cases hbr : offset + 4 + u32_from_be_bytes s offset > s.length ∨
          u32_from_be_bytes s offset = 0
      · rw [if_pos hbr] at h; simp at h
      · rw [if_neg hbr] at h
        obtain ⟨hnbr1, hnbr2⟩ := not_or.mp hbr
        rw [keyframeScan, dif_pos h4, dif_neg hbr]
        show (if s.getD (offset + 4) 0 &&& 0x1f = 5 then true
          else keyframeScan false s (offset + 4 + u32_from_be_bytes s offset)
            (if s.getD (offset + 4) 0 &&& 0x1f = 1 then true else fs)) = true
        rcases h with ⟨u, hu, hut⟩
        rcases List.mem_cons.mp hu with rfl | hu2
        · have h1 : 1 ≤ u32_from_be_bytes s offset := by omega
          have h2 : offset + 4 < s.length := by omega
          have hh := headI_take_drop s (offset + 4) (u32_from_be_bytes s offset) h2 h1
          simp only [nalType264, hh] at hut
          rw [if_pos hut]
        · have hrec := fun fs2 => ih (offset + 4 + u32_from_be_bytes s offset) fs2
            ⟨u, hu2, hut⟩
          by_cases h5 : s.getD (offset + 4) 0 &&& 0x1f = 5
          · rw [if_pos h5]
          · rw [if_neg h5]
            exact hrec _
    · rw [if_neg h4] at h; simp at h

/-- If no parsed NAL unit has H.264 type 5 and the budget covers the
whole sample, the H.264 scan returns false, whatever the state of the
slice flag. -/
theorem nalUnits_no_idr_scan (s : List Nat) :
    ∀ (fuel offset : Nat) (fs : Bool), s.length - offset < fuel →
    (∀ u ∈ nalUnitsAux s fuel offset, nalType264 u ≠ 5) →
    keyframeScan false s offset fs = false := by
  intro fuel
  induction fuel with
  | zero => intro offset fs h _; omega
  | succ fuel ih =>
    intro offset fs hf h
    rw [keyframeScan]
    by_cases h4 : offset + 4 ≤ s.length
    · rw [dif_pos h4]
      by_cases hbr : offset + 4 + u32_from_be_bytes s offset > s.length ∨
          u32_from_be_bytes s offset = 0
      · rw [dif_pos hbr, ite_self]
      · rw [dif_neg hbr]
        obtain ⟨hnbr1, hnbr2⟩ := not_or.mp hbr
        rw [nalUnitsAux, if_pos h4, if_neg hbr] at h
        have h1 : 1 ≤ u32_from_be_bytes s offset := by omega
        have h2 : offset + 4 < s.length := by omega
        have hh := headI_take_drop s (offset + 4) (u32_from_be_bytes s offset) h2 h1
        have hhead := h _ (List.mem_cons_self _ _)
        simp only [nalType264, hh] at hhead
        have htail : ∀ u ∈ nalUnitsAux s fuel (offset + 4 + u32_from_be_bytes s offset),
            nalType264 u ≠ 5 := fun u hu => h u (List.mem_cons_of_mem _ hu)
        have hfuel : s.length - (offset + 4 + u32_from_be_bytes s offset) < fuel := by omega
        have hrec := fun fs2 => ih (offset + 4 + u32_from_be_bytes s offset) fs2 hfuel htail
        show (if s.getD (offset + 4) 0 &&& 0x1f = 5 then true
          else keyframeScan false s (offset + 4 + u32_from_be_bytes s offset)
            (if s.getD (offset + 4) 0 &&& 0x1f = 1 then true else fs)) = false
        rw [if_neg hhead]
        exact hrec _
    · rw [dif_neg h4, ite_self]

/-- A step budget exceeding the sample length is enough for the scan:
the counted scan returns exactly the uncounted one. -/
theorem keyframeScanFuel_complete (hevc : Bool) (s : List Nat) :
    ∀ (fuel offset : Nat) (fs : Bool), s.length - offset < fuel →
    keyframeScanFuel hevc s fuel offset fs = some (keyframeScan hevc s offset fs) := by
  intro fuel
  induction fuel with
  | zero => intro offset fs h; omega
  | succ fuel ih =>
    intro offset fs hf
    simp only [keyframeScanFuel]
    rw [keyframeScan.eq_def]
    by_cases h4 : offset + 4 ≤ s.length
    · rw [if_pos h4, dif_pos h4]
      by_cases hbr : offset + 4 + u32_from_be_bytes s offset > s.length ∨
          u32_from_be_bytes s offset = 0
      · rw [if_pos hbr, dif_pos hbr]
      · rw [if_neg hbr, dif_neg hbr]
        obtain ⟨hnbr1, hnbr2⟩ := not_or.mp hbr
        have hfuel : s.length - (offset + 4 + u32_from_be_bytes s offset) < fuel := by omega
        cases hevc with
        | false =>
          show (if s.getD (offset + 4) 0 &&& 0x1f = 5 then some true
            else keyframeScanFuel false s fuel (offset + 4 + u32_from_be_bytes s offset)
              (if s.getD (offset + 4) 0 &&& 0x1f = 1 then true else fs)) =
            some (if s.getD (offset + 4) 0 &&& 0x1f = 5 then true
            else keyframeScan false s (offset + 4 + u32_from_be_bytes s offset)
              (if s.getD (offset + 4) 0 &&& 0x1f = 1 then true else fs))
          by_cases h5 : s.getD (offset + 4) 0 &&& 0x1f = 5
          · rw [if_pos h5, if_pos h5]
          · rw [if_neg h5, if_neg h5]
            exact ih _ _ hfuel
        | true =>
          show (if offset + 4 + 1 < s.length then
              if (s.getD (offset + 4) 0 * 2 ^ 8 + s.getD (offset + 4 + 1) 0) >>> 9 &&& 0x3f = 19 ∨
                  (s.getD (offset + 4) 0 * 2 ^ 8 + s.getD (offset + 4 + 1) 0) >>> 9 &&& 0x3f = 20 ∨
                  (s.getD (offset + 4) 0 * 2 ^ 8 + s.getD (offset + 4 + 1) 0) >>> 9 &&& 0x3f = 21 ∨
                  (s.getD (offset + 4) 0 * 2 ^ 8 + s.getD (offset + 4 + 1) 0) >>> 9 &&& 0x3f = 16 ∨
                  (s.getD (offset + 4) 0 * 2 ^ 8 + s.getD (offset + 4 + 1) 0) >>> 9 &&& 0x3f = 17 ∨
                  (s.getD (offset + 4) 0 * 2 ^ 8 + s.getD (offset + 4 + 1) 0) >>> 9 &&& 0x3f = 18 then
                some true
              else keyframeScanFuel true s fuel (offset + 4 + u32_from_be_bytes s offset)
                (if (s.getD (offset + 4) 0 * 2 ^ 8 + s.getD (offset + 4 + 1) 0) >>> 9 &&& 0x3f ≤ 9 then
                  true
                else fs)
            else keyframeScanFuel true s fuel (offset + 4 + u32_from_be_bytes s offset) fs) =
            some (if offset + 4 + 1 < s.length then
              if (s.getD (offset + 4) 0 * 2 ^ 8 + s.getD (offset + 4 + 1) 0) >>> 9 &&& 0x3f = 19 ∨
                  (s.getD (offset + 4) 0 * 2 ^ 8 + s.getD (offset + 4 + 1) 0) >>> 9 &&& 0x3f = 20 ∨
                  (s.getD (offset + 4) 0 * 2 ^ 8 + s.getD (offset + 4 + 1) 0) >>> 9 &&& 0x3f = 21 ∨
                  (s.getD (offset + 4) 0 * 2 ^ 8 + s.getD (offset + 4 + 1) 0) >>> 9 &&& 0x3f = 16 ∨
                  (s.getD (offset + 4) 0 * 2 ^ 8 + s.getD (offset + 4 + 1) 0) >>> 9 &&& 0x3f = 17 ∨
                  (s.getD (offset + 4) 0 * 2 ^ 8 + s.getD (offset + 4 + 1) 0) >>> 9 &&& 0x3f = 18 then
                true
              else keyframeScan true s (offset + 4 + u32_from_be_bytes s offset)
                (if (s.getD (offset + 4) 0 * 2 ^ 8 + s.getD (offset + 4 + 1) 0) >>> 9 &&& 0x3f ≤ 9 then
                  true
                else fs)
            else keyframeScan true s (offset + 4 + u32_from_be_bytes s offset) fs)
          by_cases h6 : offset + 4 + 1 < s.length
          · rw [if_pos h6, if_pos h6]
            by_cases h7 : (s.getD (offset + 4) 0 * 2 ^ 8 + s.getD (offset + 4 + 1) 0) >>> 9 &&& 0x3f = 19 ∨
                (s.getD (offset + 4) 0 * 2 ^ 8 + s.getD (offset + 4 + 1) 0) >>> 9 &&& 0x3f = 20 ∨
                (s.getD (offset + 4) 0 * 2 ^ 8 + s.getD (offset + 4 + 1) 0) >>> 9 &&& 0x3f = 21 ∨
                (s.getD (offset + 4) 0 * 2 ^ 8 + s.getD (offset + 4 + 1) 0) >>> 9 &&& 0x3f = 16 ∨
                (s.getD (offset + 4) 0 * 2 ^ 8 + s.getD (offset + 4 + 1) 0) >>> 9 &&& 0x3f = 17 ∨
                (s.getD (offset + 4) 0 * 2 ^ 8 + s.getD (offset + 4 + 1) 0) >>> 9 &&& 0x3f = 18
            · rw [if_pos h7, if_pos h7]
            · rw [if_neg h7, if_neg h7]
              exact ih _ _ hfuel
          · rw [if_neg h6, if_neg h6]
            exact ih _ _ hfuel
    · rw [if_neg h4, dif_neg h4]

/-- Replacing the run boxes' data offsets does not change what the traf
loop computes. -/
theorem trafLoop_erase (hevc : Bool) (mdat : List Nat) :
    ∀ (ts : List Traf) (off : Nat) (vf af : List DemuxedFrame),
    trafLoop hevc mdat off vf af (ts.map eraseTrafOffsets) =
      trafLoop hevc mdat off vf af ts := by
  intro ts
  induction ts with
  | nil => intro off vf af; simp
  | cons t ts ih =>
    intro off vf af
    rcases htr : t.trun with _ | ⟨trun, tl⟩
    · simp [trafLoop, eraseTrafOffsets, htr]
    · simp only [List.map_cons, trafLoop, eraseTrafOffsets, eraseTrunOffset, htr]
      rcases hres : entriesLoop hevc (t.tfhd.track_id == 1) mdat
          (t.tfhd.default_sample_size.getD 0) off
          (match t.tfdt with
            | some tfdt => tfdt.base_media_decode_time
            | none => 0) 0 vf af trun.entries with e | ⟨o, vf2, af2⟩ <;>
        simp [hres, ih]

/-- Replacing the run boxes' data offsets everywhere in the payload
does not change what the scanner loop computes. -/
theorem parseLoop_erase (hevc : Bool) :
    ∀ (atoms : List Atom) (pending : Option Moof) (vf af : List DemuxedFrame),
    parseLoop hevc (pending.map eraseMoofOffsets) vf af (atoms.map eraseAtomOffsets) =
      parseLoop hevc pending vf af atoms := by
  intro atoms
  induction atoms with
  | nil => intro pending vf af; cases pending <;> rfl
  | cons a rest ih =>
    intro pending vf af
    cases a with
    | moof m =>
      have := ih (some m) vf af
      simpa [eraseAtomOffsets, parseLoop] using this
    | other =>
      cases pending with
      | none => simpa [eraseAtomOffsets, parseLoop] using ih none vf af
      | some m => simpa [eraseAtomOffsets, parseLoop] using ih (some m) vf af
    | mdat d =>
      cases pending with
      | none => simpa [eraseAtomOffsets, parseLoop] using ih none vf af
      | some m =>
        simp only [eraseAtomOffsets, List.map_cons, parseLoop,
          extract_frames_from_mdat_enhanced, Option.map_some', eraseMoofOffsets]
        rw [trafLoop_erase]
        rcases hres : trafLoop hevc d 0 vf af m.traf with ⟨vf2, af2⟩ | e | _ <;>
          simp only [hres]
        exact ih none vf2 af2

/-- A trailing `moof` box (one left pending when the decoder fails)
never changes the result of the scanner loop. -/
theorem parseLoop_append_moof (hevc : Bool) :
    ∀ (atoms : List Atom) (pending : Option Moof) (vf af : List DemuxedFrame) (m : Moof),
    parseLoop hevc pending vf af (atoms ++ [.moof m]) =
      parseLoop hevc pending vf af atoms := by
  intro atoms
  induction atoms with
  | nil => intro pending vf af m; rfl
  | cons a rest ih =>
    intro pending vf af m
    cases a with
    | moof m2 =>
      simp only [List.cons_append, parseLoop]
      exact ih (some m2) vf af m
    | other =>
      cases pending with
      | none => simp only [List.cons_append, parseLoop]; exact ih none vf af m
      | some m2 => simp only [List.cons_append, parseLoop]; exact ih (some m2) vf af m
    | mdat d =>
      cases pending with
      | none => simp only [List.cons_append, parseLoop]; exact ih none vf af m
      | some m2 =>
        simp only [List.cons_append, parseLoop]
        rcases hres : extract_frames_from_mdat_enhanced hevc d m2 vf af with ⟨vf2, af2⟩ | e | _ <;>
          simp [hres, ih]

/-- C1 counterexample: a payload with an overrunning computed byte
range on which `parse_segment` does not return a MalformedPayload error
but panics — the track fragment with an empty run-box list is reached
first — so the claim as stated fails on this input. -/
theorem c1_counterexample :
    payloadOverrun none panicBeforeOverrunPayload = true ∧
    parse_segment false panicBeforeOverrunPayload = Outcome.panicked := by
  constructor
  · decide
  · decide

/-- C1 (amended): provided no track fragment of the payload has an
empty run-box list, every payload in which some run entry's computed
byte range `[cursor, cursor+size)` extends past the end of the
associated mdat data makes `parse_segment` fail with a MalformedPayload
error and return no frames at all — no `ParsedSegment` is produced for
any earlier entry, track fragment, or moof/mdat pair. -/
theorem c1_overrun_malformed (hevc : Bool) (payload : List Atom)
    (hne : noEmptyTrunLists payload = true)
    (hov : payloadOverrun none payload = true) :
    (∃ e, parse_segment hevc payload = Outcome.error e) ∧
      ∀ seg, parse_segment hevc payload ≠ Outcome.ok seg := by
  obtain ⟨e, he⟩ := parseLoop_overrun_err hevc payload none [] [] hne rfl hov
  refine ⟨⟨e, he⟩, fun seg hseg => ?_⟩
  rw [show parse_segment hevc payload = parseLoop hevc none [] [] payload from rfl,
    he] at hseg
  cases hseg

/-- C1 witness: the amended theorem applied to a concrete payload whose
single entry declares size 2 against a 1-byte mdat. -/
theorem c1_overrun_malformed_witness :
    noEmptyTrunLists exOverrunPayload = true ∧
    payloadOverrun none exOverrunPayload = true ∧
    ((∃ e, parse_segment false exOverrunPayload = Outcome.error e) ∧
      ∀ seg, parse_segment false exOverrunPayload ≠ Outcome.ok seg) :=
  ⟨by decide, by decide, c1_overrun_malformed false exOverrunPayload (by decide) (by decide)⟩

/-- C2 counterexample: the upstream decoder fails (no further decodable
box) while a moof is pending, yet `parse_segment` succeeds with an
empty segment instead of failing with MalformedPayload. -/
theorem c2_counterexample :
    parse_segment false [Atom.moof ⟨[]⟩] = Outcome.ok ⟨[], []⟩ := by decide

/-- C2 (amended): a decode failure of the upstream box decoder merely
ends the scan and is never surfaced as an error, even when a fragment
is actively being processed: a payload whose decoding ends right after
a pending `moof` parses to exactly the same result as the payload
without that trailing `moof` — the pending fragment is discarded. -/
theorem c2_decode_failure_silent (hevc : Bool) (atoms : List Atom) (m : Moof) :
    parse_segment hevc (atoms ++ [Atom.moof m]) = parse_segment hevc atoms :=
  parseLoop_append_moof hevc atoms none [] [] m

/-- C3: in H.264 mode, a sample one of whose length-prefixed NAL units
has nal type (first payload byte &&& 0x1F) equal to 5 is classified as
a keyframe, and a sample all of whose units have nal type 1 is not. -/
theorem c3_h264_keyframe_rule :
    (∀ sample : List Nat, (∃ u ∈ specNalUnits sample, nalType264 u = 5) →
      is_keyframe_sample false sample = true) ∧
    (∀ sample : List Nat, (∀ u ∈ specNalUnits sample, nalType264 u = 1) →
      is_keyframe_sample false sample = false) := by
  constructor
  · intro sample h
    exact nalUnits_idr_scan sample (sample.length + 1) 0 false h
  · intro sample h
    exact nalUnits_no_idr_scan sample (sample.length + 1) 0 false (by omega)
      (fun u hu => by rw [h u hu]; decide)

/-- C3 witness: the rule applied to a one-unit IDR sample and a
one-unit non-IDR-slice sample. -/
theorem c3_h264_keyframe_rule_witness :
    (∃ u ∈ specNalUnits exIdrSample, nalType264 u = 5) ∧
    is_keyframe_sample false exIdrSample = true ∧
    (∀ u ∈ specNalUnits exSliceSample, nalType264 u = 1) ∧
    is_keyframe_sample false exSliceSample = false :=
  ⟨by decide, c3_h264_keyframe_rule.1 exIdrSample (by decide), by decide,
    c3_h264_keyframe_rule.2 exSliceSample (by decide)⟩

/-- C4 counterexample: with a base decode time of 2^32 and no durations
or composition offsets, the emitted frame's timestamp is 0, not the
base decode time itself: the stored value is the low 32 bits of the
computed decode time, so the claim's exact equality fails. -/
theorem c4_counterexample :
    parse_segment false bigBasePayload = Outcome.ok ⟨[⟨[], some 0, none, false⟩], []⟩ ∧
    (2 : Nat) ^ 32 ≠ 0 := by
  constructor
  · decide
  · decide

/-- C4 (amended): for any track fragment the traf loop completes on,
the `i`-th emitted frame's timestamp equals the fragment's base decode
time (0 when no tfdt is present) plus the sum of the declared durations
of the earlier run entries, plus the entry's composition offset when
present (absent offsets leave the accumulated decode time alone),
reduced modulo 2^32 — the width of the stored timestamp field. -/
theorem c4_timestamp_formula (hevc : Bool) (mdat : List Nat) (off : Nat)
    (vf af : List DemuxedFrame) (t : Traf) (r : List DemuxedFrame × List DemuxedFrame)
    (hok : trafLoop hevc mdat off vf af [t] = Outcome.ok r)
    (i : Nat) (e : TrunEntry) (hi : (trafEntries t).get? i = some e) :
    ((if trafVideo t then r.1 else r.2).get?
        ((if trafVideo t then vf else af).length + i)).map (fun f => f.timestamp) =
      some (some ((trafBase t + durSum ((trafEntries t).take i) + e.cts.getD 0) % 2 ^ 32)) := by
  have hchar := trafLoop_ok_char hevc mdat [t] off vf af r hok
  subst hchar
  cases hv : trafVideo t
  · show ((af ++ specTrafsAudio hevc mdat off [t]).get? (af.length + i)).map
        (fun f => f.timestamp) =
      some (some ((trafBase t + durSum ((trafEntries t).take i) + e.cts.getD 0) % 2 ^ 32))
    have hsa : specTrafsAudio hevc mdat off [t] =
        specRunFrames hevc false mdat (trafDSize t) off (trafBase t) (trafEntries t) := by
      simp [specTrafsAudio, hv]
    rw [hsa, List.get?_append_right (by omega), Nat.add_sub_cancel_left]
    exact specRunFrames_timestamp hevc false mdat (trafDSize t) (trafEntries t) off
      (trafBase t) i e hi
  · show ((vf ++ specTrafsVideo hevc mdat off [t]).get? (vf.length + i)).map
        (fun f => f.timestamp) =
      some (some ((trafBase t + durSum ((trafEntries t).take i) + e.cts.getD 0) % 2 ^ 32))
    have hsv : specTrafsVideo hevc mdat off [t] =
        specRunFrames hevc true mdat (trafDSize t) off (trafBase t) (trafEntries t) := by
      simp [specTrafsVideo, hv]
    rw [hsv, List.get?_append_right (by omega), Nat.add_sub_cancel_left]
    exact specRunFrames_timestamp hevc true mdat (trafDSize t) (trafEntries t) off
      (trafBase t) i e hi

/-- C4 witness: the amended formula applied to the second entry of a
track fragment with base decode time 100, one earlier duration 10, and
composition offset 7 — timestamp (100 + 10 + 7) mod 2^32 = 117. -/
theorem c4_timestamp_formula_witness :
    trafLoop false [] 0 [] [] [exTsTraf] = Outcome.ok exTsResult ∧
    (trafEntries exTsTraf).get? 1 = some exTsEntry ∧
    ((if trafVideo exTsTraf then exTsResult.1 else exTsResult.2).get?
        ((if trafVideo exTsTraf then ([] : List DemuxedFrame) else []).length + 1)).map
        (fun f => f.timestamp) =
      some (some ((trafBase exTsTraf + durSum ((trafEntries exTsTraf).take 1) +
        exTsEntry.cts.getD 0) % 2 ^ 32)) :=
  ⟨by decide, by decide,
    c4_timestamp_formula false [] 0 [] [] exTsTraf exTsResult (by decide) 1 exTsEntry (by decide)⟩

/-- C5: the byte cursor starts at 0 for the first track fragment of a
`moof`; when a fragment is processed successfully, the remaining
fragments are processed from exactly the position where its last sample
ended (its starting cursor plus the sum of its declared sample sizes);
and the explicit per-run data-offset field never influences the result:
erasing every data offset leaves `parse_segment` unchanged. -/
theorem c5_cursor_contiguous :
    (∀ (hevc : Bool) (mdat : List Nat) (m : Moof) (vf af : List DemuxedFrame),
      extract_frames_from_mdat_enhanced hevc mdat m vf af =
        trafLoop hevc mdat 0 vf af m.traf) ∧
    (∀ (hevc : Bool) (mdat : List Nat) (off : Nat) (vf af : List DemuxedFrame)
      (t : Traf) (rest : List Traf) (out : List DemuxedFrame × List DemuxedFrame),
      trafLoop hevc mdat off vf af (t :: rest) = Outcome.ok out →
      ∃ vf2 af2, trafLoop hevc mdat (off + trafSizeSum t) vf2 af2 rest = Outcome.ok out) ∧
    (∀ (hevc : Bool) (payload : List Atom),
      parse_segment hevc (payload.map eraseAtomOffsets) = parse_segment hevc payload) := by
  refine ⟨fun _ _ _ _ _ => rfl, ?_, fun hevc payload => parseLoop_erase hevc payload none [] []⟩
  intro hevc mdat off vf af t rest out hok
  rcases htr : t.trun with _ | ⟨trun, tl⟩
  · simp [trafLoop, htr] at hok
  · simp only [trafLoop, htr] at hok
    by_cases he : trun.entries.isEmpty
    · simp [he] at hok
    · simp only [he, Bool.false_eq_true, if_false] at hok
      rcases hres : entriesLoop hevc (t.tfhd.track_id == 1) mdat
          (t.tfhd.default_sample_size.getD 0) off
          (match t.tfdt with
            | some tfdt => tfdt.base_media_decode_time
            | none => 0) 0 vf af trun.entries with e | ⟨o, vf2, af2⟩
      · rw [hres] at hok; cases hok
      · rw [hres] at hok
        have hok2 : trafLoop hevc mdat o vf2 af2 rest = Outcome.ok out := hok
        have hov : runEntriesOverrun (t.tfhd.default_sample_size.getD 0)
            mdat.length off trun.entries = false := by
          by_contra h2
          obtain ⟨e, hee⟩ := entriesLoop_overrun_err hevc (t.tfhd.track_id == 1) mdat
            (t.tfhd.default_sample_size.getD 0) trun.entries off
            (match t.tfdt with
              | some tfdt => tfdt.base_media_decode_time
              | none => 0) 0 vf af (eq_true_of_ne_false h2)
          rw [hee] at hres
          cases hres
        have hchar := entriesLoop_ok_char hevc (t.tfhd.track_id == 1) mdat
          (t.tfhd.default_sample_size.getD 0) trun.entries off
          (match t.tfdt with
            | some tfdt => tfdt.base_media_decode_time
            | none => 0) 0 vf af hov
        rw [hchar] at hres
        simp only [Except.ok.injEq, Prod.mk.injEq] at hres
        obtain ⟨ho, hvf, haf⟩ := hres
        refine ⟨vf2, af2, ?_⟩
        have hsz : off + runSizeSum (t.tfhd.default_sample_size.getD 0) trun.entries =
            off + trafSizeSum t := by
          simp [trafSizeSum, trafDSize, trafEntries, htr]
        rw [← hsz, ho]
        exact hok2

/-- C5 witness: the step property applied to the running example's two
track fragments — after the video fragment (declared sizes 1 + 2), the
audio fragment is processed from cursor 0 + 3. -/
theorem c5_cursor_contiguous_witness :
    trafLoop false [10, 11, 12, 13] 0 [] [] [exTrafVideo, exTrafAudio] =
      Outcome.ok exTrafResult ∧
    ∃ vf2 af2, trafLoop false [10, 11, 12, 13] (0 + trafSizeSum exTrafVideo) vf2 af2
      [exTrafAudio] = Outcome.ok exTrafResult :=
  ⟨by decide, c5_cursor_contiguous.2.1 false [10, 11, 12, 13] 0 [] []
    exTrafVideo [exTrafAudio] exTrafResult (by decide)⟩

/-- C6: on every successfully parsed payload the returned segment's
video and audio sequences are exactly the spec-side per-entry frames in
run-entry declaration order (video for track id 1, audio otherwise),
and their total length is the total number of entries in the first run
box of every track fragment across all paired moof/mdat pairs. -/
theorem c6_frame_count_and_order (hevc : Bool) (payload : List Atom) (seg : ParsedSegment)
    (hok : parse_segment hevc payload = Outcome.ok seg) :
    seg.video_frames = specPayloadVideo hevc none payload ∧
    seg.audio_frames = specPayloadAudio hevc none payload ∧
    seg.video_frames.length + seg.audio_frames.length = payloadEntryCount none payload := by
  obtain ⟨hv, ha⟩ := parseLoop_ok_char hevc payload none [] [] seg hok
  simp only [List.nil_append] at hv ha
  exact ⟨hv, ha, by rw [hv, ha]; exact specPayload_count hevc payload none⟩

/-- C6 witness: the running example payload — two video entries and one
audio entry give 2 + 1 = 3 frames in declaration order. -/
theorem c6_frame_count_and_order_witness :
    parse_segment false exPayload = Outcome.ok exSegment ∧
    (exSegment.video_frames = specPayloadVideo false none exPayload ∧
      exSegment.audio_frames = specPayloadAudio false none exPayload ∧
      exSegment.video_frames.length + exSegment.audio_frames.length =
        payloadEntryCount none exPayload) :=
  ⟨by decide, c6_frame_count_and_order false exPayload exSegment (by decide)⟩

/-- C7 counterexample: a moof/mdat pair contains a track fragment whose
first run box has an empty entry list, yet `parse_segment` panics
instead of failing with MalformedPayload, because an earlier track
fragment with an empty run-box list is reached first. -/
theorem c7_counterexample :
    payloadHasEmptyRun none panicBeforeEmptyRunPayload = true ∧
    parse_segment false panicBeforeEmptyRunPayload = Outcome.panicked := by
  constructor
  · decide
  · decide

/-- C7 (amended): provided no track fragment of the payload has an
empty run-box list, every payload with a paired moof/mdat pair in which
some track fragment's first run box has an empty entry list makes
`parse_segment` fail with a MalformedPayload error. -/
theorem c7_empty_run_malformed (hevc : Bool) (payload : List Atom)
    (hne : noEmptyTrunLists payload = true)
    (hemp : payloadHasEmptyRun none payload = true) :
    ∃ e, parse_segment hevc payload = Outcome.error e :=
  parseLoop_emptyrun_err hevc payload none [] [] hne rfl hemp

/-- C7 witness: the amended theorem applied to a payload whose single
track fragment declares one run box with no entries. -/
theorem c7_empty_run_malformed_witness :
    noEmptyTrunLists exEmptyRunPayload = true ∧
    payloadHasEmptyRun none exEmptyRunPayload = true ∧
    ∃ e, parse_segment false exEmptyRunPayload = Outcome.error e :=
  ⟨by decide, by decide, c7_empty_run_malformed false exEmptyRunPayload (by decide) (by decide)⟩

/-- C8: `is_keyframe_sample` terminates on every input sample, however
the length prefixes are arranged: a step budget of one more than the
sample length always suffices — the counted scan never exhausts it and
returns exactly the uncounted scan's verdict. -/
theorem c8_scan_terminates (hevc : Bool) (sample : List Nat) :
    keyframeScanFuel hevc sample (sample.length + 1) 0 false =
      some (is_keyframe_sample hevc sample) :=
  keyframeScanFuel_complete hevc sample (sample.length + 1) 0 false (by omega)

/-- C9: a `moof` whose first track fragment has an empty run-box list
makes the extractor panic (the unchecked `traf.trun[0]` index), not
return the MalformedPayload error of the error model; and under the
precondition that every track fragment carries at least one run box,
`parse_segment` never panics. -/
theorem c9_empty_trun_panics :
    (∀ (hevc : Bool) (mdat : List Nat) (tfhd : Tfhd) (tfdt : Option Tfdt)
      (rest : List Traf) (vf af : List DemuxedFrame),
      extract_frames_from_mdat_enhanced hevc mdat ⟨⟨tfhd, tfdt, []⟩ :: rest⟩ vf af =
        Outcome.panicked) ∧
    (∀ (hevc : Bool) (payload : List Atom), noEmptyTrunLists payload = true →
      parse_segment hevc payload ≠ Outcome.panicked) := by
  constructor
  · intro hevc mdat tfhd tfdt rest vf af
    rfl
  · intro hevc payload h
    exact parseLoop_no_panic hevc payload none [] [] h rfl

/-- C9 witness: the no-panic half applied to the running example
payload, whose track fragments all carry a run box. -/
theorem c9_empty_trun_panics_witness :
    noEmptyTrunLists exPayload = true ∧
    parse_segment false exPayload ≠ Outcome.panicked :=
  ⟨by decide, c9_empty_trun_panics.2 false exPayload (by decide)⟩

/-- C10: every frame of a successfully parsed segment carries a present
(non-None) timestamp, in the video and the audio sequence alike, even
though the field is declared optional. -/
theorem c10_timestamps_present (hevc : Bool) (payload : List Atom) (seg : ParsedSegment)
    (hok : parse_segment hevc payload = Outcome.ok seg) :
    ∀ f : DemuxedFrame, f ∈ seg.video_frames ∨ f ∈ seg.audio_frames →
      f.timestamp.isSome = true := by
  obtain ⟨hv, ha⟩ := parseLoop_ok_char hevc payload none [] [] seg hok
  simp only [List.nil_append] at hv ha
  intro f hf
  rcases hf with hf | hf
  · rw [hv] at hf
    exact specPayloadVideo_ts_isSome hevc payload none f hf
  · rw [ha] at hf
    exact specPayloadAudio_ts_isSome hevc payload none f hf

/-- C10 witness: the property applied to the running example payload
and its three frames. -/
theorem c10_timestamps_present_witness :
    parse_segment false exPayload = Outcome.ok exSegment ∧
    ∀ f : DemuxedFrame, f ∈ exSegment.video_frames ∨ f ∈ exSegment.audio_frames →
      f.timestamp.isSome = true :=
  ⟨by decide, c10_timestamps_present false exPayload exSegment (by decide)⟩
